import Mathlib

/-!
Verification of the shape-based synchronization layer of the
sveltekit-pglite-electricsql repository.

The development shallowly embeds:
* `apps/web/src/lib/electric-actions/electric-store.svelte.ts` — the stream and
  shape caches (`sortedOptionsHash`, `getShapeStream`, `getShape`,
  `createShapeStore`);
* the client write helpers `createItem` / `deleteAll` and their use of
  `matchStream` and `Promise.all`;
* the message-fold semantics of a Shape (the `Shape` class of
  `@electric-sql/client` is an external dependency, so its fold is modelled
  from the specification, §4.2), and `matchStream` (its source file
  `src/lib/match-stream.ts` is not part of the sources, only its callers are;
  modelled from the specification, §4.5).

JavaScript values appearing in shape definitions are modelled by `JsonVal`;
`JSON.stringify` with a replacer array is modelled by `stringifyWith`,
including the property-whitelist behaviour of replacer arrays at every
nesting level.
-/

namespace ElectricSync

/-- JavaScript/JSON values as they occur in shape definitions and rows.
Objects keep their property insertion order, as JavaScript objects do. -/
inductive JsonVal where
  | null
  | bool (b : Bool)
  | num (n : Int)
  | str (s : String)
  | arr (elems : List JsonVal)
  | obj (fields : List (String × JsonVal))

/-- Association-list lookup: JavaScript property access / `Map.get`.
Returns the value of the first binding of `k`. -/
def mapGet {α β : Type} [DecidableEq α] (k : α) : List (α × β) → Option β
  | [] => none
  | (k', v) :: t => if k' = k then some v else mapGet k t

/-- JavaScript truthiness of a value (objects and arrays are always truthy,
`null` is falsy, numbers and strings are falsy exactly when zero / empty). -/
def jsTruthy : JsonVal → Bool
  | .null => false
  | .bool b => b
  | .num n => n != 0
  | .str s => s != ""
  | .arr _ => true
  | .obj _ => true

/-- JavaScript property access `v.k` on an arbitrary value; `none` stands for
`undefined`. -/
def jsGet (v : JsonVal) (k : String) : Option JsonVal :=
  match v with
  | .obj fs => mapGet k fs
  | _ => none

/-- The JSON quoting of a property name or string value. -/
def quoteStr (s : String) : String :=
  "\"" ++ s ++ "\""

/-- Given the replacer key list `K` and the already-serialized fields of an
object, produce the serialized `key:value` entries in the order of `K`,
keeping exactly the keys present in the object — the property-whitelist
behaviour of a `JSON.stringify` replacer array. -/
def selectEntries (K : List String) (serialized : List (String × String)) : List String :=
  K.filterMap (fun k => (mapGet k serialized).map (fun s => quoteStr k ++ ":" ++ s))

mutual
/-- `JSON.stringify(v, K)` for a replacer array `K`: the whitelist `K` is
applied to the properties of every object at every depth (arrays are not
filtered), which is exactly ECMA-262's `SerializeJSONObject` with a
`PropertyList`. -/
def stringifyWith (K : List String) : JsonVal → String
  | .null => "null"
  | .bool b => cond b "true" "false"
  | .num n => toString n
  | .str s => quoteStr s
  | .arr xs => "[" ++ String.intercalate "," (stringifyArr K xs) ++ "]"
  | .obj fs => "\x7b" ++ String.intercalate "," (selectEntries K (stringifyFields K fs)) ++ "\x7d"

/-- Serialize every element of an array (replacer arrays do not filter array
elements). -/
def stringifyArr (K : List String) : List JsonVal → List String
  | [] => []
  | v :: vs => stringifyWith K v :: stringifyArr K vs

/-- Serialize the value of every field of an object, keeping keys and order. -/
def stringifyFields (K : List String) : List (String × JsonVal) → List (String × String)
  | [] => []
  | (k, v) :: fs => (k, stringifyWith K v) :: stringifyFields K fs
end

mutual
/-- Modelled from the spec: the "canonicalized (order-independent)
serialization" of a shape definition (§3) — every object's properties are
serialized in sorted key order, at every depth, none dropped.  This is the
spec's description of the cache key, stated independently of the code, for
comparison with `sortedOptionsHash`. -/
def specCanonicalSerialize : JsonVal → String
  | .null => "null"
  | .bool b => cond b "true" "false"
  | .num n => toString n
  | .str s => quoteStr s
  | .arr xs => "[" ++ String.intercalate "," (specCanonicalArr xs) ++ "]"
  | .obj fs =>
      "\x7b" ++
        String.intercalate ","
          ((List.insertionSort (fun a b => a.1 ≤ b.1) (specCanonicalFields fs)).map
            (fun p => quoteStr p.1 ++ ":" ++ p.2)) ++
        "\x7d"

/-- Canonically serialize every element of an array. -/
def specCanonicalArr : List JsonVal → List String
  | [] => []
  | v :: vs => specCanonicalSerialize v :: specCanonicalArr vs

/-- Canonically serialize the value of every field, keeping keys. -/
def specCanonicalFields : List (String × JsonVal) → List (String × String)
  | [] => []
  | (k, v) :: fs => (k, specCanonicalSerialize v) :: specCanonicalFields fs
end

/-- A `ShapeStreamOptions` object: a JavaScript object literal, i.e. an
ordered list of properties. -/
abbrev ShapeOptions : Type := List (String × JsonVal)

/-- `Object.keys(options).sort()`: the top-level property names of the
options object, sorted (JavaScript's default sort is lexicographic). -/
def sortedKeys (options : ShapeOptions) : List String :=
  List.insertionSort (· ≤ ·) (options.map Prod.fst)

/-- Source `sortedOptionsHash` (electric-store.svelte.ts:6-8):
`JSON.stringify(options, Object.keys(options).sort())`. -/
def sortedOptionsHash (options : ShapeOptions) : String :=
  stringifyWith (sortedKeys options) (.obj options)

/-- The module-level state of electric-store.svelte.ts: the two caches
(`streamCache : Map<string, ShapeStream>` and
`shapeCache : Map<ShapeStream, Shape>`), together with allocation counters
that give fresh identities to `new ShapeStream(...)` / `new Shape(...)`
objects, the per-shape subscriber counts held by the library `Shape`
objects, and the set of streams on which `close()` has been called. -/
structure ModuleState where
  streamCache : List (String × Nat)
  shapeCache : List (Nat × Nat)
  subs : List (Nat × Nat)
  closed : List Nat
  nextStream : Nat
  nextShape : Nat

/-- The state at module load: both caches empty, nothing subscribed,
nothing closed. -/
def initialState : ModuleState :=
  { streamCache := [], shapeCache := [], subs := [], closed := [],
    nextStream := 0, nextShape := 0 }

/-- Source `getShapeStream` (electric-store.svelte.ts:10-16): hash the
options; if the hash is not in `streamCache`, construct a new `ShapeStream`
and cache it; return the cached stream.  Stream objects are identified by
the allocation counter. -/
def getShapeStream (options : ShapeOptions) (s : ModuleState) : Nat × ModuleState :=
  let shapeHash := sortedOptionsHash options
  match mapGet shapeHash s.streamCache with
  | some sid => (sid, s)
  | none =>
      (s.nextStream,
        { s with streamCache := (shapeHash, s.nextStream) :: s.streamCache,
                 nextStream := s.nextStream + 1 })

/-- Source `getShape` (electric-store.svelte.ts:18-23): keyed by the stream
object itself (its identity), not by its options. -/
def getShape (streamId : Nat) (s : ModuleState) : Nat × ModuleState :=
  match mapGet streamId s.shapeCache with
  | some shid => (shid, s)
  | none =>
      (s.nextShape,
        { s with shapeCache := (streamId, s.nextShape) :: s.shapeCache,
                 nextShape := s.nextShape + 1 })

/-- `N` successive `getShapeStream` calls with the same options (JavaScript
is single-threaded, so even same-tick callers execute the fully synchronous
`getShapeStream` body one after the other). -/
def iterGetStream (options : ShapeOptions) : Nat → ModuleState → List Nat × ModuleState
  | 0, s => ([], s)
  | n + 1, s =>
      ((getShapeStream options s).1 ::
          (iterGetStream options n (getShapeStream options s).2).1,
        (iterGetStream options n (getShapeStream options s).2).2)

/-- Increment the subscriber count of a shape (the effect, on the library
`Shape` object, of `shape.subscribe(...)` as called at
electric-store.svelte.ts:44). -/
def bumpCount (k : Nat) : List (Nat × Nat) → List (Nat × Nat)
  | [] => [(k, 1)]
  | (k', c) :: t => if k' = k then (k', c + 1) :: t else (k', c) :: bumpCount k t

/-- Decrement the subscriber count of a shape (the effect of calling the
unsubscribe handle returned by `shape.subscribe`; the electric-store module
itself never calls it and never observes it). -/
def decCount (k : Nat) : List (Nat × Nat) → List (Nat × Nat)
  | [] => []
  | (k', c) :: t => if k' = k then (k', c - 1) :: t else (k', c) :: decCount k t

/-- Current subscriber count of a shape. -/
def getCount (k : Nat) (subs : List (Nat × Nat)) : Nat :=
  (mapGet k subs).getD 0

/-- Register a subscriber on a shape.  Nothing else in the module state
changes: the source attaches no teardown or eviction logic to
subscriptions. -/
def subscribeShape (shapeId : Nat) (s : ModuleState) : ModuleState :=
  { s with subs := bumpCount shapeId s.subs }

/-- Remove a subscriber from a shape.  The caches and the closed set are
untouched: no code path in electric-store.svelte.ts deletes a cache entry or
calls any close method. -/
def unsubscribeShape (shapeId : Nat) (s : ModuleState) : ModuleState :=
  { s with subs := decCount shapeId s.subs }

/-- The operation kind of a `ChangeMessage`. -/
inductive Operation where
  | insert
  | update
  | delete
deriving DecidableEq, BEq

/-- Stream-level control messages. -/
inductive Control where
  | upToDate
  | mustRefetch
deriving DecidableEq, BEq

/-- A data `ChangeMessage`: operation kind, row key, row value. -/
structure ChangeMsg where
  op : Operation
  key : String
  value : JsonVal

/-- A message on a shape stream: a data change or a control message. -/
inductive ShapeMsg where
  | change (m : ChangeMsg)
  | control (c : Control)

/-- Merge the fields of `new` into `old` (spread semantics: existing keys
updated in place, new keys appended). -/
def mergeFields (old upd : List (String × JsonVal)) : List (String × JsonVal) :=
  (old.map (fun p => match mapGet p.1 upd with
    | some v => (p.1, v)
    | none => p)) ++
  upd.filter (fun p => (mapGet p.1 old).isNone)

/-- Merge a (possibly partial) row value into an existing row value. -/
def mergeRow (old upd : JsonVal) : JsonVal :=
  match old, upd with
  | .obj fo, .obj fu => .obj (mergeFields fo fu)
  | _, _ => upd

/-- Upsert a row into the key-ordered row map: if the key exists the new
value is merged into the existing row, otherwise the row is appended. -/
def upsertRow (k : String) (v : JsonVal) (rows : List (String × JsonVal)) :
    List (String × JsonVal) :=
  match mapGet k rows with
  | some _ => rows.map (fun p => if p.1 = k then (p.1, mergeRow p.2 v) else p)
  | none => rows ++ [(k, v)]

/-- The materialized state of a Shape: the row map, the loading flag, the
last-synced timestamp, and the terminal error. -/
structure ShapeState where
  rows : List (String × JsonVal)
  isLoading : Bool
  lastSyncedAt : Option Nat
  error : Option String

/-- The Shape state before any message: empty map, loading. -/
def emptyShape : ShapeState :=
  { rows := [], isLoading := true, lastSyncedAt := none, error := none }

/-- Modelled from the spec: the message fold of the `Shape` class (§4.2) —
the class lives in the external `@electric-sql/client` package, absent from
the sources.  insert: if the key exists already, treated as an update;
update: merges changed fields, promoted to an insert if the key is absent;
delete: removes the key, a no-op on an absent key; control up-to-date: flips
`isLoading` to false and records `lastSyncedAt = now`; control must-refetch:
clears the row map and flips `isLoading` to true. -/
def applyMessage (now : Nat) (st : ShapeState) : ShapeMsg → ShapeState
  | .change m =>
      match m.op with
      | .insert => { st with rows := upsertRow m.key m.value st.rows }
      | .update => { st with rows := upsertRow m.key m.value st.rows }
      | .delete => { st with rows := st.rows.filter (fun p => p.1 != m.key) }
  | .control .upToDate => { st with isLoading := false, lastSyncedAt := some now }
  | .control .mustRefetch => { st with rows := [], isLoading := true }

/-- Fold an ordered message sequence into an initially empty Shape. -/
def foldShape (now : Nat) (msgs : List ShapeMsg) : ShapeState :=
  msgs.foldl (applyMessage now) emptyShape

/-- The reactive state of a store returned by `createShapeStore`
(electric-store.svelte.ts:33-36). -/
structure StoreSnapshot where
  data : List JsonVal
  isLoading : Bool
  lastSyncedAt : Option Nat
  error : Option String

/-- Source `createShapeStore` (electric-store.svelte.ts:32-80): its body
only declares the initial reactive state; it touches neither cache and
subscribes to nothing — `getShapeStream`, `getShape` and `shape.subscribe`
are all called inside `initializeShape`, which runs only when the returned
`init` method is invoked. -/
def createShapeStore (options : ShapeOptions) (s : ModuleState) :
    StoreSnapshot × ModuleState :=
  let _ := options
  ({ data := [], isLoading := true, lastSyncedAt := none, error := none }, s)

/-- The store's `data` getter: returns the reactive variable, mutating
nothing. -/
def storeGetData (st : StoreSnapshot) : List JsonVal × StoreSnapshot :=
  (st.data, st)

/-- The store's `isLoading` getter. -/
def storeGetIsLoading (st : StoreSnapshot) : Bool × StoreSnapshot :=
  (st.isLoading, st)

/-- The store's `lastSyncedAt` getter. -/
def storeGetLastSyncedAt (st : StoreSnapshot) : Option Nat × StoreSnapshot :=
  (st.lastSyncedAt, st)

/-- The store's `error` getter. -/
def storeGetError (st : StoreSnapshot) : Option String × StoreSnapshot :=
  (st.error, st)

/-- The state written by the subscriber callback registered in
`initializeShape` (electric-store.svelte.ts:44-49): `data` becomes the list
of current row values, and the flags mirror the Shape. -/
def subscriberSnapshot (sh : ShapeState) : StoreSnapshot :=
  { data := sh.rows.map Prod.snd, isLoading := sh.isLoading,
    lastSyncedAt := sh.lastSyncedAt, error := sh.error }

/-- Source `initializeShape` (electric-store.svelte.ts:40-63), as it affects
the module state: get or create the stream, get or create its shape,
subscribe to the shape. -/
def storeInit (options : ShapeOptions) (s : ModuleState) : ModuleState :=
  let (sid, s1) := getShapeStream options s
  let (shid, s2) := getShape sid s1
  subscribeShape shid s2

/-- Everything the electric-store module (together with the library handles
it returns) lets a caller do to the module state. -/
inductive ModuleOp where
  | getStreamOp (options : ShapeOptions)
  | getShapeOp (streamId : Nat)
  | storeCreateOp (options : ShapeOptions)
  | storeInitOp (options : ShapeOptions)
  | subscribeOp (shapeId : Nat)
  | unsubscribeOp (shapeId : Nat)

/-- Apply one module operation to the module state. -/
def applyOp (s : ModuleState) : ModuleOp → ModuleState
  | .getStreamOp o => (getShapeStream o s).2
  | .getShapeOp sid => (getShape sid s).2
  | .storeCreateOp o => (createShapeStore o s).2
  | .storeInitOp o => storeInit o s
  | .subscribeOp shid => subscribeShape shid s
  | .unsubscribeOp shid => unsubscribeShape shid s

/-- Apply a sequence of module operations in order. -/
def applyOps (ops : List ModuleOp) (s : ModuleState) : ModuleState :=
  ops.foldl applyOp s

/-- Modelled from the spec: `matchStream` (§4.5) — its source file
`src/lib/match-stream.ts` is not among the sources, only its callers are.
The returned promise resolves on the first `ChangeMessage` whose operation
is in `operations` and for which `matchFn` is true; the messages scanned are
those the stream delivers after the listener is registered. -/
def matchStream (operations : List Operation) (matchFn : ChangeMsg → Bool)
    (msgs : List ChangeMsg) : Option ChangeMsg :=
  msgs.find? (fun m => operations.contains m.op && matchFn m)

/-- An item as validated by `itemSchema` (+server.ts:73-77). -/
structure Item where
  id : String
  name : String
  status : String

/-- The `matchFn` passed by `createItem` (+server.ts:91):
`({ message }) => message.value.id === item.id`. -/
def createItemMatchFn (item : Item) (m : ChangeMsg) : Bool :=
  match jsGet m.value "id" with
  | some (.str s) => s == item.id
  | _ => false

/-- The `matchFn` passed by `deleteAll` (+server.ts:107):
`({ message }) => message.value` — it returns the value object itself, which
`matchStream` tests for truthiness; no key or id is compared. -/
def deleteAllMatchFn (m : ChangeMsg) : Bool :=
  jsTruthy m.value

/-- The match promise set up by `createItem` (+server.ts:88-92):
`matchStream` over the item stream with operations `['insert']`. -/
def createItemMatch (item : Item) (msgs : List ChangeMsg) : Option ChangeMsg :=
  matchStream [.insert] (createItemMatchFn item) msgs

/-- The match promise set up by `deleteAll` (+server.ts:104-108):
`matchStream` over the item stream with operations `['delete']`. -/
def deleteAllMatch (msgs : List ChangeMsg) : Option ChangeMsg :=
  matchStream [.delete] deleteAllMatchFn msgs

/-- The successive actions of the body of `createItem` (+server.ts:85-99),
in source order. -/
inductive ClientStep where
  | getStream
  | registerMatcher
  | issueFetch
  | awaitResults
deriving DecidableEq, BEq

/-- `createItem` first resolves the stream, then registers the `matchStream`
listener, then issues the HTTP POST, then awaits both promises — the
statement order of +server.ts:86-98, executed synchronously in this order
before control ever yields. -/
def createItemSteps : List ClientStep :=
  [.getStream, .registerMatcher, .issueFetch, .awaitResults]

/-- External events after `createItem` has issued its write: stream messages
and the write's own HTTP response, in arrival order. -/
inductive TimelineEvent where
  | streamMsg (m : ChangeMsg)
  | httpResponse

/-- The stream messages of an event timeline, in order. -/
def msgsOf : List TimelineEvent → List ChangeMsg
  | [] => []
  | .streamMsg m :: t => m :: msgsOf t
  | .httpResponse :: t => msgsOf t

/-- What `createItem`'s match promise resolves to, given the timeline of
events after the write was issued (the listener was registered before the
write, so it observes every stream message of the timeline). -/
def createItemMatchOnTimeline (item : Item) (t : List TimelineEvent) :
    Option ChangeMsg :=
  createItemMatch item (msgsOf t)

/-- A settled promise: the time at which it settled and its outcome. -/
structure Settled (ε α : Type) where
  time : Nat
  result : Except ε α

/-- `Promise.all` over a pair: fulfills with the pair of values once both
promises have fulfilled (so at the later of the two times); rejects with the
first rejection. -/
def promiseAll2 {ε α β : Type} (p : Settled ε α) (q : Settled ε β) :
    Settled ε (α × β) :=
  match p.result, q.result with
  | .ok a, .ok b => ⟨max p.time q.time, .ok (a, b)⟩
  | .error e, .ok _ => ⟨p.time, .error e⟩
  | .ok _, .error e => ⟨q.time, .error e⟩
  | .error e1, .error e2 =>
      if p.time ≤ q.time then ⟨p.time, .error e1⟩ else ⟨q.time, .error e2⟩

/-- Source `createItem`'s result (+server.ts:98):
`await Promise.all([findUpdatePromise, fetchPromise])`. -/
def createItemResult (matchP : Settled String ChangeMsg)
    (fetchP : Settled String Nat) : Settled String (ChangeMsg × Nat) :=
  promiseAll2 matchP fetchP

/-! ### Basic facts about association-list lookup -/

theorem mapGet_mem {α β : Type} [DecidableEq α] {k : α} {v : β} :
    ∀ {l : List (α × β)}, mapGet k l = some v → (k, v) ∈ l := by
  intro l
  induction l with
  | nil => intro h; simp [mapGet] at h
  | cons p t ih =>
      obtain ⟨k', v'⟩ := p
      intro h
      by_cases hk : k' = k
      · subst hk
        simp [mapGet] at h
        simp [h]
      · rw [mapGet, if_neg hk] at h
        exact List.mem_cons_of_mem _ (ih h)

theorem mapGet_of_mem_nodup {α β : Type} [DecidableEq α] {k : α} {v : β} :
    ∀ {l : List (α × β)}, (l.map Prod.fst).Nodup → (k, v) ∈ l →
      mapGet k l = some v := by
  intro l
  induction l with
  | nil => intro _ h; simp at h
  | cons p t ih =>
      obtain ⟨k', v'⟩ := p
      intro nd hmem
      rw [List.map_cons, List.nodup_cons] at nd
      rcases List.mem_cons.mp hmem with heq | htail
      · injection heq with hk hv
        subst hk
        subst hv
        rw [mapGet, if_pos rfl]
      · have hk : k' ≠ k := by
          intro hkk
          exact nd.1 (by rw [hkk]; exact List.mem_map.mpr ⟨(k, v), htail, rfl⟩)
        rw [mapGet, if_neg hk]
        exact ih nd.2 htail

theorem mapGet_eq_none_iff {α β : Type} [DecidableEq α] {k : α} :
    ∀ {l : List (α × β)}, mapGet k l = none ↔ k ∉ l.map Prod.fst := by
  intro l
  induction l with
  | nil => simp [mapGet]
  | cons p t ih =>
      obtain ⟨k', v'⟩ := p
      by_cases hk : k' = k
      · subst hk
        simp [mapGet]
      · rw [mapGet, if_neg hk, List.map_cons]
        simp only [List.mem_cons, not_or, ih]
        constructor
        · intro h; exact ⟨fun he => hk he.symm, h⟩
        · intro h; exact h.2

theorem mapGet_perm {α β : Type} [DecidableEq α] {l1 l2 : List (α × β)}
    (hp : l1.Perm l2) (nd : (l1.map Prod.fst).Nodup) (k : α) :
    mapGet k l1 = mapGet k l2 := by
  have ndk : (l1.map Prod.fst).Perm (l2.map Prod.fst) := hp.map Prod.fst
  have nd2 : (l2.map Prod.fst).Nodup := ndk.nodup_iff.mp nd
  cases h1 : mapGet (β := β) k l1 with
  | some v =>
      exact (mapGet_of_mem_nodup nd2 (hp.mem_iff.mp (mapGet_mem h1))).symm
  | none =>
      have hk1 : k ∉ l1.map Prod.fst := mapGet_eq_none_iff.mp h1
      have hk2 : k ∉ l2.map Prod.fst := fun h => hk1 (ndk.mem_iff.mpr h)
      exact (mapGet_eq_none_iff.mpr hk2).symm

theorem mapGet_ne_of_snd_nodup {α β : Type} [DecidableEq α]
    {l : List (α × β)} {k1 k2 : α} {v1 v2 : β}
    (nd : (l.map Prod.snd).Nodup)
    (h1 : mapGet k1 l = some v1) (h2 : mapGet k2 l = some v2)
    (hk : k1 ≠ k2) : v1 ≠ v2 := by
  intro hv
  have hm1 : (k1, v1) ∈ l := mapGet_mem h1
  have hm2 : (k2, v2) ∈ l := mapGet_mem h2
  have : (k1, v1) = (k2, v2) :=
    List.inj_on_of_nodup_map nd hm1 hm2 (by simpa using hv)
  exact hk (congrArg Prod.fst this)

/-! ### The hash is invariant under property reordering -/

theorem mapGet_stringifyFields (K : List String) (k : String) :
    ∀ fs : List (String × JsonVal),
      mapGet k (stringifyFields K fs) = (mapGet k fs).map (stringifyWith K) := by
  intro fs
  induction fs with
  | nil => simp [stringifyFields, mapGet]
  | cons p t ih =>
      obtain ⟨k', v'⟩ := p
      by_cases hk : k' = k
      · subst hk
        simp [stringifyFields, mapGet]
      · rw [stringifyFields, mapGet, if_neg hk, mapGet, if_neg hk]
        exact ih

theorem stringifyWith_obj_congr (K : List String)
    {o1 o2 : List (String × JsonVal)}
    (h : ∀ k, mapGet k o1 = mapGet k o2) :
    stringifyWith K (.obj o1) = stringifyWith K (.obj o2) := by
  rw [stringifyWith, stringifyWith]
  have : selectEntries K (stringifyFields K o1) =
      selectEntries K (stringifyFields K o2) := by
    unfold selectEntries
    refine List.filterMap_congr (fun k _ => ?_)
    rw [mapGet_stringifyFields, mapGet_stringifyFields, h k]
  rw [this]

theorem sortedKeys_perm {o1 o2 : ShapeOptions} (hp : o1.Perm o2) :
    sortedKeys o1 = sortedKeys o2 :=
  List.eq_of_perm_of_sorted
    ((List.perm_insertionSort _ _).trans
      ((hp.map Prod.fst).trans (List.perm_insertionSort _ _).symm))
    (List.sorted_insertionSort _ _) (List.sorted_insertionSort _ _)

theorem sortedOptionsHash_perm {o1 o2 : ShapeOptions} (hp : o1.Perm o2)
    (nd : (o1.map Prod.fst).Nodup) :
    sortedOptionsHash o1 = sortedOptionsHash o2 := by
  rw [sortedOptionsHash, sortedOptionsHash, sortedKeys_perm hp]
  exact stringifyWith_obj_congr _ (mapGet_perm hp nd)

/-! ### Cache behaviour of getShapeStream and getShape -/

theorem getShapeStream_of_found {o : ShapeOptions} {s : ModuleState} {i : Nat}
    (h : mapGet (sortedOptionsHash o) s.streamCache = some i) :
    getShapeStream o s = (i, s) := by
  rw [getShapeStream]
  simp only [h]

theorem getShapeStream_of_new {o : ShapeOptions} {s : ModuleState}
    (h : mapGet (sortedOptionsHash o) s.streamCache = none) :
    getShapeStream o s =
      (s.nextStream,
        { s with streamCache := (sortedOptionsHash o, s.nextStream) :: s.streamCache,
                 nextStream := s.nextStream + 1 }) := by
  rw [getShapeStream]
  simp only [h]

theorem mapGet_after_getShapeStream (o : ShapeOptions) (s : ModuleState) :
    mapGet (sortedOptionsHash o) ((getShapeStream o s).2).streamCache =
      some (getShapeStream o s).1 := by
  cases h : mapGet (sortedOptionsHash o) s.streamCache with
  | some i => rw [getShapeStream_of_found h]; exact h
  | none => rw [getShapeStream_of_new h]; simp [mapGet]

theorem getShapeStream_hash_congr {o1 o2 : ShapeOptions} (s : ModuleState)
    (h : sortedOptionsHash o2 = sortedOptionsHash o1) :
    getShapeStream o2 (getShapeStream o1 s).2 =
      ((getShapeStream o1 s).1, (getShapeStream o1 s).2) :=
  getShapeStream_of_found (h ▸ mapGet_after_getShapeStream o1 s)

theorem getShape_of_found {sid : Nat} {s : ModuleState} {i : Nat}
    (h : mapGet sid s.shapeCache = some i) :
    getShape sid s = (i, s) := by
  rw [getShape]
  simp only [h]

theorem getShape_of_new {sid : Nat} {s : ModuleState}
    (h : mapGet sid s.shapeCache = none) :
    getShape sid s =
      (s.nextShape,
        { s with shapeCache := (sid, s.nextShape) :: s.shapeCache,
                 nextShape := s.nextShape + 1 }) := by
  rw [getShape]
  simp only [h]

theorem mapGet_after_getShape (sid : Nat) (s : ModuleState) :
    mapGet sid ((getShape sid s).2).shapeCache = some (getShape sid s).1 := by
  cases h : mapGet sid s.shapeCache with
  | some i => rw [getShape_of_found h]; exact h
  | none => rw [getShape_of_new h]; simp [mapGet]

/-! ### Well-formedness of the module state -/

/-- Invariants of the module state maintained by every operation: cache keys
are unique (they are `Map` keys), cached objects are distinct (every
`new ShapeStream` / `new Shape` allocates a fresh object), and allocated
identities are below the counters. -/
structure WF (s : ModuleState) : Prop where
  streamKeysNodup : (s.streamCache.map Prod.fst).Nodup
  streamIdsNodup : (s.streamCache.map Prod.snd).Nodup
  streamIdsLt : ∀ p ∈ s.streamCache, p.2 < s.nextStream
  shapeKeysNodup : (s.shapeCache.map Prod.fst).Nodup
  shapeIdsNodup : (s.shapeCache.map Prod.snd).Nodup
  shapeIdsLt : ∀ p ∈ s.shapeCache, p.2 < s.nextShape

theorem WF_initialState : WF initialState := by
  constructor <;> simp [initialState]

theorem WF_getShapeStream {s : ModuleState} (hWF : WF s) (o : ShapeOptions) :
    WF (getShapeStream o s).2 := by
  cases h : mapGet (sortedOptionsHash o) s.streamCache with
  | some i => rw [getShapeStream_of_found h]; exact hWF
  | none =>
      rw [getShapeStream_of_new h]
      obtain ⟨h1, h2, h3, h4, h5, h6⟩ := hWF
      constructor
      · exact List.nodup_cons.mpr ⟨mapGet_eq_none_iff.mp h, h1⟩
      · refine List.nodup_cons.mpr ⟨?_, h2⟩
        intro hmem
        obtain ⟨p, hp, hps⟩ := List.mem_map.mp hmem
        exact absurd hps (Nat.ne_of_gt (h3 p hp)).symm
      · intro p hp
        rcases List.mem_cons.mp hp with he | ht
        · rw [he]; exact Nat.lt_succ_self _
        · exact Nat.lt_succ_of_lt (h3 p ht)
      · exact h4
      · exact h5
      · exact h6

theorem WF_getShape {s : ModuleState} (hWF : WF s) (sid : Nat) :
    WF (getShape sid s).2 := by
  cases h : mapGet sid s.shapeCache with
  | some i => rw [getShape_of_found h]; exact hWF
  | none =>
      rw [getShape_of_new h]
      obtain ⟨h1, h2, h3, h4, h5, h6⟩ := hWF
      constructor
      · exact h1
      · exact h2
      · exact h3
      · exact List.nodup_cons.mpr ⟨mapGet_eq_none_iff.mp h, h4⟩
      · refine List.nodup_cons.mpr ⟨?_, h5⟩
        intro hmem
        obtain ⟨p, hp, hps⟩ := List.mem_map.mp hmem
        exact absurd hps (Nat.ne_of_gt (h6 p hp)).symm
      · intro p hp
        rcases List.mem_cons.mp hp with he | ht
        · rw [he]; exact Nat.lt_succ_self _
        · exact Nat.lt_succ_of_lt (h6 p ht)

/-! ### Concrete shape definitions used as test inputs -/

/-- Source `itemShape` (+server.ts:81-83):
`{ url: new URL('/v1/shape/items', BASE_URL).href }` with
`BASE_URL = http://localhost:3000` (constants.ts). -/
def itemShapeOptions : ShapeOptions :=
  [("url", .str "http://localhost:3000/v1/shape/items")]

/-- A shape definition with a nested `params` object carrying a `where`
filter, as accepted by `ShapeStreamOptions`. -/
def nestedOpts1 : ShapeOptions :=
  [("url", .str "http://localhost:3000/v1/shape/items"),
   ("params", .obj [("table", .str "items"), ("where", .str "status = 1")])]

/-- Identical to `nestedOpts1` except in the nested `where` filter. -/
def nestedOpts2 : ShapeOptions :=
  [("url", .str "http://localhost:3000/v1/shape/items"),
   ("params", .obj [("table", .str "items"), ("where", .str "status = 2")])]

/-- The same properties as `permOpts2`, declared in the opposite order. -/
def permOpts1 : ShapeOptions :=
  [("url", .str "http://localhost:3000/v1/shape/items"), ("table", .str "items")]

/-- The same properties as `permOpts1`, declared in the opposite order. -/
def permOpts2 : ShapeOptions :=
  [("table", .str "items"), ("url", .str "http://localhost:3000/v1/shape/items")]

/-! ### C1 -/

/-- C1, counterexample to the claim as stated: `nestedOpts1` and
`nestedOpts2` differ in a nested `where` filter field, so their
canonicalized (order-independent) serializations differ — yet
`getShapeStream` returns the *same* cached stream instance for both,
because the replacer array `Object.keys(options).sort()` whitelists only
top-level key names at every depth and so drops the nested `table` and
`where` properties from the hash entirely. -/
theorem claimC1_counterexample :
    specCanonicalSerialize (JsonVal.obj nestedOpts1) ≠
      specCanonicalSerialize (JsonVal.obj nestedOpts2) ∧
    (getShapeStream nestedOpts2 (getShapeStream nestedOpts1 initialState).2).1 =
      (getShapeStream nestedOpts1 initialState).1 := by
  constructor
  · simp [nestedOpts1, nestedOpts2, specCanonicalSerialize, specCanonicalFields,
      specCanonicalArr, quoteStr, List.insertionSort, List.orderedInsert]
    decide
  · have hh : sortedOptionsHash nestedOpts2 = sortedOptionsHash nestedOpts1 := by
      simp [nestedOpts1, nestedOpts2, sortedOptionsHash, sortedKeys, stringifyWith,
        stringifyFields, stringifyArr, selectEntries, mapGet, quoteStr,
        List.insertionSort, List.orderedInsert]
      decide
    rw [getShapeStream_hash_congr initialState hh]

/-- C1 (amended): two sequential `getShapeStream` calls return the same
cached `ShapeStream` instance if and only if the two definitions have equal
`sortedOptionsHash` — the serialization whose replacer array whitelists the
(sorted) top-level key names at every depth.  Equality of the spec's fully
canonicalized serialization is *not* the cache criterion: definitions that
differ only in a nested filter field not named at top level share one cache
entry and one stream (see the counterexample). -/
theorem getShapeStream_same_iff_hash (o1 o2 : ShapeOptions) (s : ModuleState)
    (hWF : WF s) :
    (getShapeStream o2 (getShapeStream o1 s).2).1 = (getShapeStream o1 s).1 ↔
      sortedOptionsHash o2 = sortedOptionsHash o1 := by
  constructor
  · intro heq
    by_contra hne
    have hWF1 : WF (getShapeStream o1 s).2 := WF_getShapeStream hWF o1
    have hr1 := mapGet_after_getShapeStream o1 s
    cases h2 : mapGet (sortedOptionsHash o2) ((getShapeStream o1 s).2).streamCache with
    | some i =>
        rw [getShapeStream_of_found h2] at heq
        exact mapGet_ne_of_snd_nodup hWF1.streamIdsNodup h2 hr1 hne heq
    | none =>
        rw [getShapeStream_of_new h2] at heq
        have hlt : (getShapeStream o1 s).1 < ((getShapeStream o1 s).2).nextStream :=
          hWF1.streamIdsLt _ (mapGet_mem hr1)
        exact Nat.ne_of_gt hlt heq
  · intro hh
    rw [getShapeStream_hash_congr s hh]

/-- C1, witness: the amended theorem applied to two flat definitions at the
initial (empty-cache) module state. -/
theorem getShapeStream_same_iff_hash_witness :
    (getShapeStream permOpts2 (getShapeStream permOpts1 initialState).2).1 =
        (getShapeStream permOpts1 initialState).1 ↔
      sortedOptionsHash permOpts2 = sortedOptionsHash permOpts1 :=
  getShapeStream_same_iff_hash permOpts1 permOpts2 initialState
    (by constructor <;> simp [initialState])

/-! ### C2 -/

/-- C2: two shape definition objects with the same properties and values
but different property declaration order (a permutation, keys unique as in
any JavaScript object) produce the same `sortedOptionsHash`, and the second
`getShapeStream` call returns the very cache entry the first call
produced. -/
theorem getShapeStream_perm_same (o1 o2 : ShapeOptions) (s : ModuleState)
    (hperm : o1.Perm o2) (hnd : (o1.map Prod.fst).Nodup) :
    sortedOptionsHash o1 = sortedOptionsHash o2 ∧
    (getShapeStream o2 (getShapeStream o1 s).2).1 = (getShapeStream o1 s).1 := by
  have hh := sortedOptionsHash_perm hperm hnd
  exact ⟨hh, by rw [getShapeStream_hash_congr s hh.symm]⟩

/-- C2, witness: `permOpts1` and `permOpts2` hold the same two properties
in opposite declaration order; starting from the empty cache both calls
yield one and the same stream. -/
theorem getShapeStream_perm_same_witness :
    sortedOptionsHash permOpts1 = sortedOptionsHash permOpts2 ∧
    (getShapeStream permOpts2 (getShapeStream permOpts1 initialState).2).1 =
      (getShapeStream permOpts1 initialState).1 :=
  getShapeStream_perm_same permOpts1 permOpts2 initialState
    (List.Perm.swap _ _ _) (by decide)

/-! ### C3 -/

theorem iterGetStream_cached {o : ShapeOptions} {s : ModuleState} {i : Nat}
    (h : mapGet (sortedOptionsHash o) s.streamCache = some i) :
    ∀ n, iterGetStream o n s = (List.replicate n i, s) := by
  intro n
  induction n with
  | zero => rfl
  | succ n ih =>
      rw [iterGetStream, getShapeStream_of_found h]
      simp only [ih, List.replicate_succ]

/-- C3: starting from any state whose cache has no entry for the
definition's hash, `N ≥ 1` successive `getShapeStream` calls with that
definition (JavaScript executes same-tick callers of this fully synchronous
function sequentially) construct exactly one `ShapeStream` — the allocation
counter advances by exactly one — every call returns that same instance,
the cache is not touched again after the first call, and it holds exactly
one entry for the definition's canonical key. -/
theorem iterGetStream_single_stream (o : ShapeOptions) (s : ModuleState)
    (N : Nat) (hN : 1 ≤ N)
    (hnew : mapGet (sortedOptionsHash o) s.streamCache = none) :
    (iterGetStream o N s).1 = List.replicate N s.nextStream ∧
    ((iterGetStream o N s).2).nextStream = s.nextStream + 1 ∧
    (iterGetStream o N s).2 = (getShapeStream o s).2 ∧
    (((iterGetStream o N s).2).streamCache.map Prod.fst).count
      (sortedOptionsHash o) = 1 := by
  obtain ⟨n, rfl⟩ : ∃ n, N = n + 1 := ⟨N - 1, (Nat.succ_pred_eq_of_pos hN).symm⟩
  have hs1 := getShapeStream_of_new hnew
  have hcached : mapGet (sortedOptionsHash o)
      ((getShapeStream o s).2).streamCache = some s.nextStream := by
    rw [hs1, mapGet, if_pos rfl]
  have hrest := iterGetStream_cached hcached n
  have hfst : (getShapeStream o s).1 = s.nextStream := by rw [hs1]
  refine ⟨?_, ?_, ?_, ?_⟩
  · rw [iterGetStream, hrest, hfst, List.replicate_succ]
  · rw [iterGetStream, hrest, hs1]
  · rw [iterGetStream, hrest]
  · rw [iterGetStream, hrest, hs1, List.map_cons, List.count_cons_self]
    have : (s.streamCache.map Prod.fst).count (sortedOptionsHash o) = 0 :=
      List.count_eq_zero.mpr (mapGet_eq_none_iff.mp hnew)
    rw [this]

/-- C3, witness: three calls with the item shape definition at the initial
state construct one stream (id 0) and return it three times. -/
theorem iterGetStream_single_stream_witness :
    (1 ≤ 3 ∧
      mapGet (sortedOptionsHash itemShapeOptions) initialState.streamCache = none) ∧
    ((iterGetStream itemShapeOptions 3 initialState).1 =
        List.replicate 3 initialState.nextStream ∧
      ((iterGetStream itemShapeOptions 3 initialState).2).nextStream =
        initialState.nextStream + 1 ∧
      (iterGetStream itemShapeOptions 3 initialState).2 =
        (getShapeStream itemShapeOptions initialState).2 ∧
      (((iterGetStream itemShapeOptions 3 initialState).2).streamCache.map
          Prod.fst).count (sortedOptionsHash itemShapeOptions) = 1) :=
  ⟨⟨by decide, rfl⟩,
    iterGetStream_single_stream itemShapeOptions initialState 3 (by decide) rfl⟩

/-! ### C4 -/

theorem getShapeStream_streamCache_mono (o : ShapeOptions) (s : ModuleState) :
    ∀ e ∈ s.streamCache, e ∈ ((getShapeStream o s).2).streamCache := by
  intro e he
  cases h : mapGet (sortedOptionsHash o) s.streamCache with
  | some i => rw [getShapeStream_of_found h]; exact he
  | none => rw [getShapeStream_of_new h]; exact List.mem_cons_of_mem _ he

theorem getShapeStream_closed_eq (o : ShapeOptions) (s : ModuleState) :
    ((getShapeStream o s).2).closed = s.closed := by
  cases h : mapGet (sortedOptionsHash o) s.streamCache with
  | some i => rw [getShapeStream_of_found h]
  | none => rw [getShapeStream_of_new h]

theorem getShape_streamCache_eq (sid : Nat) (s : ModuleState) :
    ((getShape sid s).2).streamCache = s.streamCache := by
  cases h : mapGet sid s.shapeCache with
  | some i => rw [getShape_of_found h]
  | none => rw [getShape_of_new h]

theorem getShape_closed_eq (sid : Nat) (s : ModuleState) :
    ((getShape sid s).2).closed = s.closed := by
  cases h : mapGet sid s.shapeCache with
  | some i => rw [getShape_of_found h]
  | none => rw [getShape_of_new h]

/-- C4 (amended): the module has no eviction or close path at all.  Every
operation it offers — getting a stream, getting a shape, creating or
initializing a store, subscribing, and in particular unsubscribing a
shape's subscriber — preserves every existing stream-cache entry and never
closes a stream; releasing the last subscriber does *not* remove or close
the cached stream. -/
theorem streamCache_never_evicted (op : ModuleOp) (s : ModuleState) :
    (∀ e ∈ s.streamCache, e ∈ (applyOp s op).streamCache) ∧
    (applyOp s op).closed = s.closed := by
  cases op with
  | getStreamOp o =>
      exact ⟨getShapeStream_streamCache_mono o s, getShapeStream_closed_eq o s⟩
  | getShapeOp sid =>
      refine ⟨?_, getShape_closed_eq sid s⟩
      intro e he
      rw [applyOp, getShape_streamCache_eq]
      exact he
  | storeCreateOp o => exact ⟨fun e he => he, rfl⟩
  | storeInitOp o =>
      constructor
      · intro e he
        show e ∈ (subscribeShape _ (getShape _ (getShapeStream o s).2).2).streamCache
        rw [subscribeShape, getShape_streamCache_eq]
        exact getShapeStream_streamCache_mono o s e he
      · show (subscribeShape _ (getShape _ (getShapeStream o s).2).2).closed = s.closed
        rw [subscribeShape, getShape_closed_eq, getShapeStream_closed_eq]
  | subscribeOp shid => exact ⟨fun e he => he, rfl⟩
  | unsubscribeOp shid => exact ⟨fun e he => he, rfl⟩

/-- C4, counterexample to the claim as stated: create the item stream, its
shape, subscribe once, then unsubscribe — the shape's last (and only)
subscriber is gone, yet the stream cache still holds the stream's entry and
no stream was ever closed, contradicting "after the last unsubscribe, the
stream is closed and its cache entry removed". -/
theorem claimC4_counterexample :
    (let final := applyOps
        [ModuleOp.getStreamOp itemShapeOptions, ModuleOp.getShapeOp 0,
         ModuleOp.subscribeOp 0, ModuleOp.unsubscribeOp 0] initialState
     getCount 0 final.subs = 0 ∧ final.streamCache.length = 1 ∧
       final.closed = []) :=
  ⟨rfl, rfl, rfl⟩

/-! ### C6 -/

/-- The spec's example scenario message sequence (§8). -/
def exampleMsgs : List ShapeMsg :=
  [.change ⟨.insert, "k1", .obj [("name", .str "A")]⟩,
   .change ⟨.insert, "k2", .obj [("name", .str "B")]⟩,
   .change ⟨.update, "k1", .obj [("name", .str "A2")]⟩,
   .change ⟨.delete, "k2", .obj [("name", .str "B")]⟩,
   .control .upToDate]

/-- C6: folding the example message sequence into an initially empty Shape
yields exactly the row map with `k1` mapped to the updated row, with
`isLoading` false and `lastSyncedAt` recorded by the up-to-date control
message, and the store's subscriber callback (electric-store.svelte.ts:44-49)
observes exactly that state. -/
theorem foldShape_example (now : Nat) :
    foldShape now exampleMsgs =
      { rows := [("k1", .obj [("name", .str "A2")])], isLoading := false,
        lastSyncedAt := some now, error := none } ∧
    subscriberSnapshot (foldShape now exampleMsgs) =
      { data := [.obj [("name", .str "A2")]], isLoading := false,
        lastSyncedAt := some now, error := none } :=
  ⟨rfl, rfl⟩

/-! ### C7 -/

/-- C7: `getShape` is keyed by the stream's identity.  Repeated calls with
the same stream return the identical cached Shape, and calls with two
distinct stream instances return two distinct Shape objects — regardless of
the streams' option values, which `getShape` never consults. -/
theorem getShape_identity_cached (s : ModuleState) (hWF : WF s)
    (sid1 sid2 : Nat) (hne : sid1 ≠ sid2) :
    (getShape sid1 (getShape sid1 s).2).1 = (getShape sid1 s).1 ∧
    (getShape sid2 (getShape sid1 s).2).1 ≠ (getShape sid1 s).1 := by
  have hafter := mapGet_after_getShape sid1 s
  have hWF1 : WF (getShape sid1 s).2 := WF_getShape hWF sid1
  constructor
  · rw [getShape_of_found hafter]
  · cases h2 : mapGet sid2 ((getShape sid1 s).2).shapeCache with
    | some i =>
        rw [getShape_of_found h2]
        exact mapGet_ne_of_snd_nodup hWF1.shapeIdsNodup h2 hafter (Ne.symm hne)
    | none =>
        rw [getShape_of_new h2]
        have hlt : (getShape sid1 s).1 < ((getShape sid1 s).2).nextShape :=
          hWF1.shapeIdsLt _ (mapGet_mem hafter)
        exact Nat.ne_of_gt hlt

/-- C7, witness: streams 0 and 1 at the initial state — the repeated call
returns the same shape, the distinct stream gets a distinct shape. -/
theorem getShape_identity_cached_witness :
    (getShape 0 (getShape 0 initialState).2).1 = (getShape 0 initialState).1 ∧
    (getShape 1 (getShape 0 initialState).2).1 ≠ (getShape 0 initialState).1 :=
  getShape_identity_cached initialState (by constructor <;> simp [initialState])
    0 1 (by decide)

/-! ### C10 -/

/-- C10: a store fresh from `createShapeStore`, before `init()` is called,
reports `data = []`, `isLoading = true`, `lastSyncedAt = undefined` and
`error = null`; the four getters are pure field reads leaving the store
unchanged; and the module state — caches and subscriptions — is exactly as
before the call, so no stream subscription exists until `init()` runs. -/
theorem createShapeStore_initial (options : ShapeOptions) (s : ModuleState) :
    (createShapeStore options s).1.data = [] ∧
    (createShapeStore options s).1.isLoading = true ∧
    (createShapeStore options s).1.lastSyncedAt = none ∧
    (createShapeStore options s).1.error = none ∧
    (createShapeStore options s).2 = s ∧
    (∀ st : StoreSnapshot,
      storeGetData st = (st.data, st) ∧
      storeGetIsLoading st = (st.isLoading, st) ∧
      storeGetLastSyncedAt st = (st.lastSyncedAt, st) ∧
      storeGetError st = (st.error, st)) :=
  ⟨rfl, rfl, rfl, rfl, rfl, fun _ => ⟨rfl, rfl, rfl, rfl⟩⟩

/-! ### C5 -/

theorem msgsOf_append (t1 t2 : List TimelineEvent) :
    msgsOf (t1 ++ t2) = msgsOf t1 ++ msgsOf t2 := by
  induction t1 with
  | nil => rfl
  | cons e t ih =>
      cases e with
      | streamMsg m => rw [List.cons_append, msgsOf, msgsOf, ih, List.cons_append]
      | httpResponse => rw [List.cons_append, msgsOf, msgsOf, ih]

/-- C5: in `createItem` the `matchStream` listener is registered strictly
before the HTTP POST is issued (+server.ts:88 precedes +server.ts:94, both
executed synchronously before any await), so the listener observes every
stream message caused by the write; consequently, for any timeline in which
the first matching insert message arrives *before* the write's own HTTP
response, the match promise still resolves to exactly that message. -/
theorem createItem_registers_before_fetch (item : Item)
    (pre post : List TimelineEvent) (m : ChangeMsg)
    (hpre : ∀ m' ∈ msgsOf pre,
      ([Operation.insert].contains m'.op && createItemMatchFn item m') = false)
    (hop : m.op = .insert) (hmatch : createItemMatchFn item m = true) :
    createItemSteps.indexOf .registerMatcher < createItemSteps.indexOf .issueFetch ∧
    createItemMatchOnTimeline item
        (pre ++ TimelineEvent.streamMsg m :: TimelineEvent.httpResponse :: post) =
      some m := by
  constructor
  · decide
  · have hmsgs : msgsOf (pre ++ TimelineEvent.streamMsg m ::
        TimelineEvent.httpResponse :: post) = msgsOf pre ++ m :: msgsOf post := by
      rw [msgsOf_append, msgsOf, msgsOf]
    rw [createItemMatchOnTimeline, createItemMatch, matchStream, hmsgs,
      List.find?_append]
    have hnone : (msgsOf pre).find?
        (fun m' => [Operation.insert].contains m'.op && createItemMatchFn item m') =
        none :=
      List.find?_eq_none.mpr (fun x hx => by rw [hpre x hx]; exact Bool.false_ne_true)
    rw [hnone]
    have hpm : ([Operation.insert].contains m.op && createItemMatchFn item m) = true := by
      rw [hop, hmatch]
      rfl
    rw [Option.none_or]
    exact List.find?_cons_of_pos _ hpm

/-- A stream message whose row is the written item (id `k3`). -/
def msgK3 : ChangeMsg :=
  ⟨.insert, "k3",
    .obj [("id", .str "k3"), ("name", .str "Nina"), ("status", .str "active")]⟩

/-- An unrelated insert message for another row (id `k9`). -/
def msgOther : ChangeMsg :=
  ⟨.insert, "k9",
    .obj [("id", .str "k9"), ("name", .str "Omar"), ("status", .str "active")]⟩

/-- C5, witness: with an unrelated insert delivered first and the matching
insert for `k3` arriving before the HTTP response, the match resolves to
the `k3` message. -/
theorem createItem_registers_before_fetch_witness :
    createItemSteps.indexOf .registerMatcher < createItemSteps.indexOf .issueFetch ∧
    createItemMatchOnTimeline ⟨"k3", "Nina", "active"⟩
        ([TimelineEvent.streamMsg msgOther] ++ TimelineEvent.streamMsg msgK3 ::
          TimelineEvent.httpResponse :: []) =
      some msgK3 :=
  createItem_registers_before_fetch ⟨"k3", "Nina", "active"⟩
    [TimelineEvent.streamMsg msgOther] [] msgK3
    (by decide) rfl (by decide)

/-! ### C8 -/

/-- C8: `createItem` returns `Promise.all` of the match promise and the
fetch promise, so it fulfills exactly when both fulfill — with the pair of
both results, and no earlier than either of them settles — and it rejects
as soon as either promise rejects. -/
theorem createItemResult_pair (mp : Settled String ChangeMsg)
    (fp : Settled String Nat) :
    ((createItemResult mp fp).result.isOk = true ↔
      (mp.result.isOk = true ∧ fp.result.isOk = true)) ∧
    (∀ m r, mp.result = .ok m → fp.result = .ok r →
      createItemResult mp fp = ⟨max mp.time fp.time, .ok (m, r)⟩) ∧
    (∀ e, mp.result = .error e → (createItemResult mp fp).result.isOk = false) ∧
    (∀ e, fp.result = .error e → (createItemResult mp fp).result.isOk = false) ∧
    (∀ m r, mp.result = .ok m → fp.result = .ok r →
      mp.time ≤ (createItemResult mp fp).time ∧
      fp.time ≤ (createItemResult mp fp).time) := by
  obtain ⟨t1, r1⟩ := mp
  obtain ⟨t2, r2⟩ := fp
  cases r1 with
  | ok m0 =>
      cases r2 with
      | ok r0 =>
          simp [createItemResult, promiseAll2, Except.isOk, Except.toBool,
            Nat.le_max_left, Nat.le_max_right]
      | error e2 =>
          simp [createItemResult, promiseAll2, Except.isOk, Except.toBool]
  | error e1 =>
      cases r2 with
      | ok r0 =>
          simp [createItemResult, promiseAll2, Except.isOk, Except.toBool]
      | error e2 =>
          simp only [createItemResult, promiseAll2]
          split <;> simp [Except.isOk, Except.toBool]

/-- C8, witness: the match promise settles at time 5 and the fetch promise
at time 2, both fulfilled; `createItem` resolves at time `max 5 2` with the
pair of both results. -/
theorem createItemResult_pair_witness :
    createItemResult ⟨5, Except.ok msgK3⟩ ⟨2, Except.ok 200⟩ =
      ⟨max 5 2, Except.ok (msgK3, 200)⟩ :=
  (createItemResult_pair ⟨5, Except.ok msgK3⟩ ⟨2, Except.ok 200⟩).2.1
    msgK3 200 rfl rfl

/-! ### C9 -/

theorem deleteAllPred_eq_isDelete (m : ChangeMsg)
    (h : jsTruthy m.value = true) :
    ([Operation.delete].contains m.op && deleteAllMatchFn m) =
      (m.op == Operation.delete) := by
  rw [deleteAllMatchFn, h, Bool.and_true]
  cases m.op <;> rfl

/-- C9: `deleteAll`'s match predicate is the truthiness of the message's
value object — it compares no key or id — so it holds for every delete
message carrying a truthy value, it is unchanged by replacing the message's
row key, and on any stream whose messages carry truthy (object) values the
match promise resolves on the first delete-operation message, whichever row
it concerns. -/
theorem deleteAll_first_delete (msgs : List ChangeMsg)
    (htruthy : ∀ m ∈ msgs, jsTruthy m.value = true) :
    (∀ m : ChangeMsg, m.op = .delete → jsTruthy m.value = true →
      ([Operation.delete].contains m.op && deleteAllMatchFn m) = true) ∧
    (∀ (m : ChangeMsg) (k : String),
      deleteAllMatchFn { m with key := k } = deleteAllMatchFn m) ∧
    deleteAllMatch msgs = msgs.find? (fun m => m.op == Operation.delete) := by
  refine ⟨?_, fun _ _ => rfl, ?_⟩
  · intro m hop htr
    rw [deleteAllPred_eq_isDelete m htr, hop]
    rfl
  · rw [deleteAllMatch, matchStream]
    induction msgs with
    | nil => rfl
    | cons m t ih =>
        have hm := htruthy m (List.mem_cons_self m t)
        have ht : ∀ x ∈ t, jsTruthy x.value = true :=
          fun x hx => htruthy x (List.mem_cons_of_mem m hx)
        rw [List.find?_cons, List.find?_cons, deleteAllPred_eq_isDelete m hm]
        cases m.op == Operation.delete with
        | true => rfl
        | false => exact ih ht

/-- The example message sequence for `deleteAll`: an insert, then two
deletes for different rows. -/
def deleteScenarioMsgs : List ChangeMsg :=
  [⟨.insert, "k1", .obj [("id", .str "k1"), ("name", .str "A")]⟩,
   ⟨.delete, "a", .obj [("id", .str "a")]⟩,
   ⟨.delete, "b", .obj [("id", .str "b")]⟩]

/-- C9, witness: on a stream with two delete messages for different rows,
`deleteAll`'s match resolves on the first delete message — the one for row
`a`, although `deleteAll` never mentioned that row. -/
theorem deleteAll_first_delete_witness :
    (∀ m ∈ deleteScenarioMsgs, jsTruthy m.value = true) ∧
    deleteAllMatch deleteScenarioMsgs =
      deleteScenarioMsgs.find? (fun m => m.op == Operation.delete) ∧
    deleteAllMatch deleteScenarioMsgs =
      some ⟨.delete, "a", .obj [("id", .str "a")]⟩ :=
  ⟨by decide, (deleteAll_first_delete deleteScenarioMsgs (by decide)).2.2, rfl⟩

end ElectricSync
